import Mathlib

/-!
# Verification of the multilingual doctor-directory normalizer and filter engine

Shallow embedding of the normalization / vocabulary / filtering logic of the
doctor-list page (the `mergeByDocId`, `normalizePerRow`, `tData`,
`populateFilters`, `updateDistrictsForCity`, `updateAreasForDistrict`,
`formatPhoneForTel` and `applyFilters` functions, together with the
city/district change handlers).

JavaScript strings are modelled as Lean `String`s.  A missing field of a raw
record and a field holding the empty string are observationally identical in
the source (every access is either a truthiness test or `x || ""`), so record
fields are plain `String`s with `""` for "absent".  JavaScript objects used as
per-language dictionaries, and `Map`s, are modelled as insertion-ordered
association lists with unique keys.
-/

set_option autoImplicit false

namespace DoctorList

/-- JavaScript `a || b` on strings: `""` is the only falsy string. -/
def jsOr (a b : String) : String := if a = "" then b else a

/-- `String.prototype.toLowerCase` on one character (the labels involved are
ASCII letters or CJK characters, which JS lowercases exactly like this). -/
def lowerChar (c : Char) : Char :=
  if 'A' ≤ c ∧ c ≤ 'Z' then Char.ofNat (c.toNat + 32) else c

/-- `s.toLowerCase()`. -/
def lowerStr (s : String) : String := ⟨s.data.map lowerChar⟩

/-- `s.trim()`: strip whitespace from both ends. -/
def trimStr (s : String) : String :=
  ⟨((s.data.dropWhile Char.isWhitespace).reverse.dropWhile Char.isWhitespace).reverse⟩

/-- Prefix test on character lists. -/
def isPrefixL : List Char → List Char → Bool
  | [], _ => true
  | _ :: _, [] => false
  | a :: as, b :: bs => a = b && isPrefixL as bs

/-- `hay.includes(needle)`: contiguous-substring test on character lists. -/
def isInfixL (needle hay : List Char) : Bool :=
  match hay with
  | [] => needle.isEmpty
  | _ :: t => isPrefixL needle hay || isInfixL needle t

/-- Lexicographic `≤` on character lists (code-point order), the comparison
behind the default JS `Array.prototype.sort` on strings. -/
def leChars : List Char → List Char → Bool
  | [], _ => true
  | _ :: _, [] => false
  | a :: as, b :: bs => if a = b then leChars as bs else decide (a < b)

/-- Lexicographic `≤` on strings. -/
def strLe (a b : String) : Bool := leChars a.data b.data

/-- First truthy (non-empty) string of a list, else `""`.  Mirrors a chain
`a || b || ... || ''` of JavaScript string disjunctions. -/
def firstTruthy : List String → String
  | [] => ""
  | v :: vs => if v = "" then firstTruthy vs else v

/-- A per-language dictionary: insertion-ordered association list.  Keys are
language tags, values are strings. -/
abbrev LangMap := List (String × String)

/-- Property lookup `m[k]` on an object used as a dictionary. -/
def lookupL (m : LangMap) (k : String) : Option String :=
  match m with
  | [] => none
  | (k', v) :: rest => if k' = k then some v else lookupL rest k

/-- `m[k]` coerced to a string the way the source consumes it
(`undefined` behaves like `""` in every use site). -/
def lookupD (m : LangMap) (k : String) : String := (lookupL m k).getD ""

/-- Assignment `m[k] = v` on an object dictionary: replaces the value of an
existing key in place, otherwise appends the new key (JS objects and `Map`s
preserve insertion order). -/
def setL (m : LangMap) (k : String) (v : String) : LangMap :=
  match m with
  | [] => [(k, v)]
  | (k', v') :: rest => if k' = k then (k', v) :: rest else (k', v') :: setL rest k v

/-- `Object.values(m)` (insertion order). -/
def valuesL (m : LangMap) : List String := m.map Prod.snd

/-- Keys of an object dictionary (insertion order). -/
def keysL (m : LangMap) : List String := m.map Prod.fst

/-- The guarded update pattern `if (item.field) doc.map[lang] = item.field;`. -/
def condSet (m : LangMap) (lang : String) (v : String) : LangMap :=
  if v = "" then m else setL m lang v

/-- A raw record of `data/doctors.json`.  Any field may be absent; absence is
modelled by `""` (see module docstring). -/
structure Record where
  doc_id : String := ""
  lang : String := ""
  doc_name : String := ""
  doc_address : String := ""
  doc_tel_A : String := ""
  doc_cat_name : String := ""
  doc_wh : String := ""
  doc_remark : String := ""
  area_name : String := ""
  district_name : String := ""
  city_name : String := ""
  doc_lat : String := ""
  doc_long : String := ""
  cta_link : String := ""
  deriving DecidableEq

/-- A normalized doctor entity: per-language maps plus language-independent
seed fields.  `baseId` is only populated by the per-row strategy. -/
structure Doctor where
  id : String := ""
  baseId : String := ""
  names : LangMap := []
  addresses : LangMap := []
  address : String := ""
  phones : LangMap := []
  specialties : LangMap := []
  openings : LangMap := []
  remarks : LangMap := []
  areas : LangMap := []
  districts : LangMap := []
  cities : LangMap := []
  lat : String := ""
  lng : String := ""
  cta_link : String := ""
  deriving DecidableEq, Inhabited

/-- The localizable attributes served by `tData`. -/
inductive Field where
  | name | address | specialty | opening | area | district | city | phone | remark
  deriving DecidableEq

/-- The per-language map of a doctor for a given attribute (the
`plural[field]` indirection of `tData`). -/
def Doctor.mapOf (d : Doctor) : Field → LangMap
  | .name => d.names
  | .address => d.addresses
  | .specialty => d.specialties
  | .opening => d.openings
  | .area => d.areas
  | .district => d.districts
  | .city => d.cities
  | .phone => d.phones
  | .remark => d.remarks

/-- `tData(doc, field, lang)`: localized field access with the fallback chain
`map[lang] || map['zh-HK'] || map['zh-CN'] || map['en'] || ''`. -/
def tData (d : Doctor) (f : Field) (lang : String) : String :=
  let m := d.mapOf f
  jsOr (lookupD m lang) (jsOr (lookupD m "zh-HK") (jsOr (lookupD m "zh-CN") (lookupD m "en")))

/-- `item.lang || 'en'`. -/
def langOf (item : Record) : String := jsOr item.lang "en"

/-- `item.doc_id || ''`. -/
def idOf (item : Record) : String := item.doc_id

/-- The fresh entity created on the first occurrence of an identifier in
grouped mode (`map.set(id, {...})` in `mergeByDocId`). -/
def seedDoctor (id : String) (item : Record) : Doctor :=
  { id := id
    names := []
    addresses := []
    address := item.doc_address
    phones := []
    specialties := []
    openings := []
    remarks := []
    areas := []
    districts := []
    cities := []
    lat := item.doc_lat
    lng := item.doc_long
    cta_link := item.cta_link }

/-- The body of the `forEach` in `mergeByDocId` applied to the entity that
holds the record's identifier. -/
def mergeInto (doc : Doctor) (item : Record) : Doctor :=
  let lang := langOf item
  { doc with
    names := setL doc.names lang (jsOr item.doc_name (jsOr (lookupD doc.names lang) ""))
    addresses := condSet doc.addresses lang item.doc_address
    phones := condSet doc.phones lang item.doc_tel_A
    specialties := condSet doc.specialties lang item.doc_cat_name
    openings := condSet doc.openings lang item.doc_wh
    remarks := condSet doc.remarks lang item.doc_remark
    areas := condSet doc.areas lang item.area_name
    districts := condSet doc.districts lang item.district_name
    cities := condSet doc.cities lang item.city_name
    lat := if doc.lat = "" ∧ item.doc_lat ≠ "" then item.doc_lat else doc.lat
    lng := if doc.lng = "" ∧ item.doc_long ≠ "" then item.doc_long else doc.lng }

/-- The accumulating map of `mergeByDocId`, keyed by identifier. -/
abbrev DocMap := List (String × Doctor)

/-- One `forEach` iteration of `mergeByDocId`: create the entity if the
identifier is new, then merge the record's language-tagged values into it. -/
def mergeStep (m : DocMap) (item : Record) : DocMap :=
  let id := idOf item
  let m' := if (m.map Prod.fst).contains id then m else m ++ [(id, seedDoctor id item)]
  m'.map (fun p => if p.1 = id then (p.1, mergeInto p.2 item) else p)

/-- `mergeByDocId(data)`: grouped-by-identifier normalization. -/
def mergeByDocId (data : List Record) : List Doctor :=
  (data.foldl mergeStep []).map Prod.snd

/-- `normalizePerRow(data)`: one entity per raw record; the maps hold exactly
one language key, seeded (possibly with `""` placeholders) from the record. -/
def normalizePerRow (data : List Record) : List Doctor :=
  data.enum.map fun (idx, item) =>
    let lang := langOf item
    { id := s!"{idOf item}_{lang}_{idx}"
      baseId := idOf item
      names := [(lang, item.doc_name)]
      addresses := [(lang, item.doc_address)]
      address := item.doc_address
      phones := [(lang, item.doc_tel_A)]
      specialties := [(lang, item.doc_cat_name)]
      openings := [(lang, item.doc_wh)]
      remarks := [(lang, item.doc_remark)]
      areas := [(lang, item.area_name)]
      districts := [(lang, item.district_name)]
      cities := [(lang, item.city_name)]
      lat := item.doc_lat
      lng := item.doc_long
      cta_link := item.cta_link }

/-- `formatPhoneForTel(phone)`: `phone.replace(/[^+0-9]/g, '')` behind a
falsy guard — the global replace deletes every character that is neither a
digit nor `+`. -/
def formatPhoneForTel (phone : String) : String :=
  if phone = "" then "" else ⟨phone.data.filter (fun c => c = '+' ∨ ('0' ≤ c ∧ c ≤ '9'))⟩

/-- The ephemeral filter selection read from the five inputs. -/
structure Selection where
  query : String := ""
  specialty : String := ""
  city : String := ""
  district : String := ""
  area : String := ""
  deriving DecidableEq

/-- The predicate of the `doctors.filter(d => ...)` body in `applyFilters`:
free-text match over all name languages, then case-insensitive
match-any-language equality for each non-empty categorical selection. -/
def matchesFilters (sel : Selection) (d : Doctor) : Bool :=
  let q := lowerStr (trimStr sel.query)
  let allNames := lowerStr (String.intercalate " " (valuesL d.names))
  if q ≠ "" ∧ ¬ isInfixL q.data allNames.data then false
  else if sel.specialty ≠ "" ∧
      ¬ (valuesL d.specialties).any (fun s => lowerStr s = lowerStr sel.specialty) then false
  else if sel.city ≠ "" ∧
      ¬ (valuesL d.cities).any (fun s => lowerStr s = lowerStr sel.city) then false
  else if sel.district ≠ "" ∧
      ¬ (valuesL d.districts).any (fun s => lowerStr s = lowerStr sel.district) then false
  else if sel.area ≠ "" ∧
      ¬ (valuesL d.areas).any (fun s => lowerStr s = lowerStr sel.area) then false
  else true

/-- `applyFilters` restricted to its result computation: the ordered subset of
entities passing all constraints (rendering is a sink). -/
def applyFilters (doctors : List Doctor) (sel : Selection) : List Doctor :=
  doctors.filter (matchesFilters sel)

/-! ## Vocabulary builder (`populateFilters`) -/

/-- Generic association lookup for the nested city/district structures. -/
def lookupA {α : Type} (m : List (String × α)) (k : String) : Option α :=
  match m with
  | [] => none
  | (k', v) :: rest => if k' = k then some v else lookupA rest k

/-- In-place value update at a key (no-op when the key is absent). -/
def modifyA {α : Type} (m : List (String × α)) (k : String) (f : α → α) : List (String × α) :=
  m.map fun p => if p.1 = k then (p.1, f p.2) else p

/-- `if (!m.has(k)) m.set(k, dflt)`: `Map` insertion keeps insertion order. -/
def ensureKey {α : Type} (m : List (String × α)) (k : String) (dflt : α) : List (String × α) :=
  if (m.map Prod.fst).contains k then m else m ++ [(k, dflt)]

/-- `Set.add`: a JS `Set` keeps first-insertion order and ignores repeats. -/
def addSet (l : List String) (x : String) : List String :=
  if l.contains x then l else l ++ [x]

/-- `districtLabel ↦ Set(areaLabel)` for one city. -/
abbrev DistrictMap := List (String × List String)

/-- `cityLabel ↦ districtLabel ↦ Set(areaLabel)` (`window.__citiesMap`). -/
abbrev CitiesMap := List (String × DistrictMap)

/-- One `doctors.forEach` iteration of `populateFilters`: accumulate the
localized specialty label (when non-empty) and thread the city/district/area
labels into the nested map. -/
def popStep (lang : String) (acc : List String × CitiesMap) (d : Doctor) :
    List String × CitiesMap :=
  let specialties := acc.1
  let cities := acc.2
  let spec := tData d .specialty lang
  let specialties := if spec = "" then specialties else addSet specialties spec
  let cityLabel := tData d .city lang
  let districtLabel := tData d .district lang
  let areaLabel := tData d .area lang
  let cities := ensureKey cities cityLabel []
  let cities := modifyA cities cityLabel fun dm =>
    let dm := ensureKey dm districtLabel []
    if areaLabel = "" then dm else modifyA dm districtLabel (fun s => addSet s areaLabel)
  (specialties, cities)

/-- The specialty set and nested cities map built by `populateFilters` for the
active language (before the sorted `<option>` lists are emitted). -/
def populateFilters (doctors : List Doctor) (lang : String) : List String × CitiesMap :=
  doctors.foldl (popStep lang) ([], [])

/-- Insertion into a `≤`-sorted list of strings. -/
def insertStr (x : String) : List String → List String
  | [] => [x]
  | y :: ys => if strLe x y then x :: y :: ys else y :: insertStr x ys

/-- `[...s].sort()`: lexicographic ascending sort of labels (modelled by
insertion sort; ties are identical strings, so stability is moot). -/
def sortStr (l : List String) : List String := l.foldr insertStr []

/-- The specialty `<option>` values appended by `populateFilters`. -/
def specialtyOptions (doctors : List Doctor) (lang : String) : List String :=
  sortStr (populateFilters doctors lang).1

/-- The city `<option>` values appended by `populateFilters`. -/
def cityOptions (doctors : List Doctor) (lang : String) : List String :=
  sortStr ((populateFilters doctors lang).2.map Prod.fst)

/-! ## Selector state and the dependent-selector cascade -/

/-- The mutable view state: data, active language, the cached
`window.__citiesMap`, the five input values, the rebuilt dependent option
lists, and the rendered result list. -/
structure UIState where
  doctors : List Doctor := []
  lang : String := "en"
  citiesMap : CitiesMap := []
  searchVal : String := ""
  specialtyVal : String := ""
  cityVal : String := ""
  districtVal : String := ""
  areaVal : String := ""
  districtOpts : List String := [""]
  areaOpts : List String := [""]
  results : List Doctor := []
  deriving DecidableEq

/-- `updateDistrictsForCity(city)`: assigning `innerHTML` a single empty
option on the district and area selects discards their options and resets
their selected value to `""`; then the district options for `city` are
appended, from the cities map when the city is a key of it, otherwise from the
doctors fallback scan. -/
def updateDistrictsForCity (city : String) (st : UIState) : UIState :=
  let st := { st with districtOpts := [""], districtVal := "",
                      areaOpts := [""], areaVal := "" }
  if (st.citiesMap.map Prod.fst).contains city then
    let dm := (lookupA st.citiesMap city).getD []
    { st with districtOpts := st.districtOpts ++ sortStr (dm.map Prod.fst) }
  else
    let districts := st.doctors.foldl
      (fun acc d =>
        let c := tData d .city st.lang
        let districtLabel := tData d .district st.lang
        if (city = "" ∨ c = city) ∧ districtLabel ≠ "" then addSet acc districtLabel else acc)
      []
    { st with districtOpts := st.districtOpts ++ sortStr districts }

/-- `updateAreasForDistrict(city, district)`: reset the area select to the
single empty option (clearing its selection), then append the area options. -/
def updateAreasForDistrict (city district : String) (st : UIState) : UIState :=
  let st := { st with areaOpts := [""], areaVal := "" }
  if (st.citiesMap.map Prod.fst).contains city then
    let dm := (lookupA st.citiesMap city).getD []
    let areaSet := (lookupA dm district).getD []
    { st with areaOpts := st.areaOpts ++ sortStr areaSet }
  else
    let areas := st.doctors.foldl
      (fun acc d =>
        let c := tData d .city st.lang
        let districtLabel := tData d .district st.lang
        let areaLabel := tData d .area st.lang
        if ((city = "" ∨ c = city) ∧ (district = "" ∨ districtLabel = district)) ∧ areaLabel ≠ ""
        then addSet acc areaLabel else acc)
      []
    { st with areaOpts := st.areaOpts ++ sortStr areas }

/-- `applyFilters()` as a state transition: recompute the rendered list from
the current input values. -/
def applyFiltersUI (st : UIState) : UIState :=
  let sel : Selection :=
    { query := st.searchVal, specialty := st.specialtyVal, city := st.cityVal,
      district := st.districtVal, area := st.areaVal }
  { st with results := applyFilters st.doctors sel }

/-- The user picks city `v`: the select's value changes, then its `change`
listener runs `updateDistrictsForCity`, `updateAreasForDistrict(v, '')` and
`applyFilters`. -/
def selectCity (v : String) (st : UIState) : UIState :=
  applyFiltersUI (updateAreasForDistrict v "" (updateDistrictsForCity v ({ st with cityVal := v })))

/-- The user picks district `v`: the select's value changes, then its `change`
listener runs `updateAreasForDistrict(citySelect.value, v)` and
`applyFilters`. -/
def selectDistrict (v : String) (st : UIState) : UIState :=
  applyFiltersUI (updateAreasForDistrict st.cityVal v ({ st with districtVal := v }))

/-- The four categorical selectors of the filter selection. -/
inductive Category where
  | specialty | city | district | area
  deriving DecidableEq

/-- The selection whose only non-empty constraint is the given categorical
choice (empty text query, the other three selectors empty). -/
def Selection.forCategory : Category → String → Selection
  | .specialty, l => { specialty := l }
  | .city, l => { city := l }
  | .district, l => { district := l }
  | .area, l => { area := l }

/-- The language-keyed map of an entity that a categorical selector is
matched against. -/
def Doctor.categoryMap (d : Doctor) : Category → LangMap
  | .specialty => d.specialties
  | .city => d.cities
  | .district => d.districts
  | .area => d.areas

/-! ### Concrete sample data (the spec's §8 scenario rows and variants) -/

/-- `{doc_id:"1",lang:"en",doc_name:"Tan",city_name:"Hong Kong"}`. -/
def scenarioRowEn : Record :=
  { doc_id := "1", lang := "en", doc_name := "Tan", city_name := "Hong Kong" }

/-- `{doc_id:"1",lang:"zh-HK",doc_name:"陳",city_name:"香港"}`. -/
def scenarioRowZh : Record :=
  { doc_id := "1", lang := "zh-HK", doc_name := "陳", city_name := "香港" }

/-- An English row for doctor 1 carrying no field values. -/
def emptyNameRowEn : Record := { doc_id := "1", lang := "en" }

/-- A row whose only localized payload is a Chinese specialty label. -/
def specialtyRowZh : Record := { doc_id := "2", lang := "zh-HK", doc_cat_name := "心臟科" }

/-- A later row for doctor 1 carrying coordinates. -/
def latRowZh : Record := { doc_id := "1", lang := "zh-HK", doc_lat := "22.3", doc_long := "114.2" }

/-- The entity produced by grouping the two spec scenario rows. -/
def scenarioDoctor : Doctor := (mergeByDocId [scenarioRowEn, scenarioRowZh]).headI

/-- The entity produced by grouping an empty-name English row with the
Chinese scenario row: its names map stores `""` under `"en"`. -/
def emptyNameDoctor : Doctor := (mergeByDocId [emptyNameRowEn, scenarioRowZh]).headI

/-! ## Basic lemmas about the JS-dictionary model -/

theorem jsOr_empty_left (b : String) : jsOr "" b = b := rfl

theorem jsOr_of_ne_empty {a : String} (h : a ≠ "") (b : String) : jsOr a b = a := by
  simp [jsOr, h]

theorem jsOr_self (a : String) : jsOr a a = a := by
  by_cases h : a = "" <;> simp [jsOr, h]

theorem firstTruthy_cons (v : String) (vs : List String) :
    firstTruthy (v :: vs) = jsOr v (firstTruthy vs) := by
  by_cases h : v = "" <;> simp [firstTruthy, jsOr, h]

theorem mem_addSet {l : List String} {x a : String} :
    a ∈ addSet l x ↔ a ∈ l ∨ a = x := by
  by_cases h : l.contains x
  · have hx : x ∈ l := by simpa using h
    simp only [addSet, if_pos h]
    exact ⟨Or.inl, fun m => m.elim id (fun e => e ▸ hx)⟩
  · simp only [addSet, if_neg h, List.mem_append, List.mem_singleton]

theorem mem_insertStr {l : List String} {x a : String} :
    a ∈ insertStr x l ↔ a = x ∨ a ∈ l := by
  induction l with
  | nil => simp [insertStr]
  | cons y ys ih =>
    by_cases h : strLe x y
    · simp [insertStr, h]
    · simp only [insertStr, if_neg h, List.mem_cons, ih]
      tauto

theorem mem_sortStr {l : List String} {a : String} : a ∈ sortStr l ↔ a ∈ l := by
  induction l with
  | nil => simp [sortStr]
  | cons y ys ih =>
    simp only [sortStr, List.foldr_cons] at *
    rw [mem_insertStr, ih, List.mem_cons]

theorem lookupA_eq_lookupL (m : LangMap) (k : String) : lookupA m k = lookupL m k := by
  induction m with
  | nil => rfl
  | cons p rest ih => by_cases h : p.1 = k <;> simp [lookupA, lookupL, h, ih]

theorem lookupA_append {α : Type} (m₁ m₂ : List (String × α)) (k : String) :
    lookupA (m₁ ++ m₂) k = ((lookupA m₁ k).orElse (fun _ => lookupA m₂ k)) := by
  induction m₁ with
  | nil => simp [lookupA]
  | cons p rest ih => by_cases h : p.1 = k <;> simp [lookupA, h, ih]

theorem lookupA_cons {α : Type} (a : String) (b : α) (rest : List (String × α)) (k : String) :
    lookupA ((a, b) :: rest) k = if a = k then some b else lookupA rest k := rfl

theorem modifyA_cons {α : Type} (p : String × α) (rest : List (String × α)) (k : String)
    (f : α → α) :
    modifyA (p :: rest) k f = (if p.1 = k then (p.1, f p.2) else p) :: modifyA rest k f := rfl

theorem contains_keys_iff {α : Type} (m : List (String × α)) (k : String) :
    (m.map Prod.fst).contains k ↔ (lookupA m k).isSome := by
  induction m with
  | nil => simp [lookupA]
  | cons p rest ih =>
    rcases eq_or_ne p.1 k with h | h
    · subst h
      simp [lookupA_cons (k := p.1)]
    · obtain ⟨a, b⟩ := p
      simp only [lookupA_cons, if_neg h, List.map_cons, List.contains_cons] at *
      rw [← ih]
      have : (k == a) = false := by
        simp only [beq_eq_false_iff_ne, ne_eq]
        exact fun e => h e.symm
      simp [this]

theorem lookupA_modifyA {α : Type} (m : List (String × α)) (k k' : String) (f : α → α) :
    lookupA (modifyA m k f) k' =
      if k' = k then (lookupA m k').map f else lookupA m k' := by
  induction m with
  | nil => by_cases h : k' = k <;> simp [modifyA, lookupA, h]
  | cons p rest ih =>
    obtain ⟨a, b⟩ := p
    rw [modifyA_cons]
    by_cases h1 : a = k
    · subst h1
      by_cases h2 : k' = a
      · subst h2
        simp [lookupA_cons]
      · simp [lookupA_cons, h2, Ne.symm h2, ih]
    · by_cases h2 : a = k'
      · subst h2
        simp [lookupA_cons, h1, Ne.symm h1]
      · simp [lookupA_cons, h1, h2, ih]

theorem keys_modifyA {α : Type} (m : List (String × α)) (k : String) (f : α → α) :
    (modifyA m k f).map Prod.fst = m.map Prod.fst := by
  induction m with
  | nil => rfl
  | cons p rest ih =>
    rw [modifyA_cons, List.map_cons, List.map_cons, ih]
    congr 1
    split <;> rfl

theorem lookupA_ensureKey {α : Type} (m : List (String × α)) (k k' : String) (dflt : α) :
    lookupA (ensureKey m k dflt) k' =
      if k' = k then some ((lookupA m k).getD dflt) else lookupA m k' := by
  unfold ensureKey
  by_cases hc : (m.map Prod.fst).contains k
  · rw [if_pos hc]
    rcases Option.isSome_iff_exists.mp ((contains_keys_iff m k).mp hc) with ⟨v, hv⟩
    by_cases h : k' = k
    · subst h; simp [hv]
    · simp [h]
  · rw [if_neg hc, lookupA_append]
    have hnone : lookupA m k = none := by
      cases h : lookupA m k with
      | none => rfl
      | some v => exact absurd ((contains_keys_iff m k).mpr (by simp [h])) hc
    by_cases h : k' = k
    · subst h; simp [hnone, lookupA]
    · cases hl : lookupA m k' with
      | none => simp [hl, lookupA_cons, lookupA, h, Ne.symm h]
      | some v => simp [hl, h]

theorem keys_ensureKey {α : Type} (m : List (String × α)) (k : String) (dflt : α) :
    (ensureKey m k dflt).map Prod.fst =
      if (m.map Prod.fst).contains k then m.map Prod.fst else m.map Prod.fst ++ [k] := by
  unfold ensureKey
  split <;> simp [*]

theorem mem_values_setL {m : LangMap} {k v a : String} :
    a ∈ valuesL (setL m k v) → a = v ∨ a ∈ valuesL m := by
  induction m with
  | nil => simp [setL, valuesL]
  | cons p rest ih =>
    by_cases h : p.1 = k
    · simp only [setL, if_pos h, valuesL, List.map_cons, List.mem_cons]
      rintro (rfl | hm)
      · exact Or.inl rfl
      · exact Or.inr (Or.inr hm)
    · simp only [setL, if_neg h, valuesL, List.map_cons, List.mem_cons]
      rintro (rfl | hm)
      · exact Or.inr (Or.inl rfl)
      · rcases ih hm with h' | h'
        · exact Or.inl h'
        · exact Or.inr (Or.inr h')

theorem mem_values_condSet {m : LangMap} {k v a : String} :
    a ∈ valuesL (condSet m k v) → (a = v ∧ v ≠ "") ∨ a ∈ valuesL m := by
  unfold condSet
  by_cases h : v = ""
  · simp [h]
  · rw [if_neg h]
    intro hm
    rcases mem_values_setL hm with h' | h'
    · exact Or.inl ⟨h', h⟩
    · exact Or.inr h'

theorem jsOr_empty_right (a : String) : jsOr a "" = a := by
  by_cases h : a = "" <;> simp [jsOr, h]

theorem jsOr_chain (a b c e : String) :
    jsOr a (jsOr b (jsOr c e)) = firstTruthy [a, b, c, e] := by
  rw [firstTruthy_cons, firstTruthy_cons, firstTruthy_cons, firstTruthy_cons]
  simp [firstTruthy, jsOr_empty_right]

theorem jsOr_chain_empty_iff (a b c e : String) :
    jsOr a (jsOr b (jsOr c e)) = "" ↔ a = "" ∧ b = "" ∧ c = "" ∧ e = "" := by
  unfold jsOr
  split_ifs <;> simp_all

/-- `tData` returns the first truthy value of the four-key fallback chain. -/
theorem tData_eq_firstTruthy (d : Doctor) (f : Field) (lang : String) :
    tData d f lang =
      firstTruthy [lookupD (d.mapOf f) lang, lookupD (d.mapOf f) "zh-HK",
        lookupD (d.mapOf f) "zh-CN", lookupD (d.mapOf f) "en"] :=
  jsOr_chain _ _ _ _

/-- `tData` returns `""` exactly when the whole fallback chain is empty. -/
theorem tData_eq_empty_iff (d : Doctor) (f : Field) (lang : String) :
    tData d f lang = "" ↔
      lookupD (d.mapOf f) lang = "" ∧ lookupD (d.mapOf f) "zh-HK" = "" ∧
      lookupD (d.mapOf f) "zh-CN" = "" ∧ lookupD (d.mapOf f) "en" = "" :=
  jsOr_chain_empty_iff _ _ _ _

/-! ### The key structure of `mergeByDocId` -/

/-- `mergeByDocId`'s loop body is a conditional insertion followed by an
in-place update of the entry holding the record's identifier. -/
theorem mergeStep_eq (m : DocMap) (it : Record) :
    mergeStep m it =
      modifyA (ensureKey m (idOf it) (seedDoctor (idOf it) it)) (idOf it)
        (fun d => mergeInto d it) := rfl

theorem keys_mergeStep (m : DocMap) (it : Record) :
    (mergeStep m it).map Prod.fst = addSet (m.map Prod.fst) (idOf it) := by
  rw [mergeStep_eq, keys_modifyA, keys_ensureKey]
  rfl

theorem keys_foldl_mergeStep (data : List Record) :
    ∀ m : DocMap,
      ((data.foldl mergeStep m).map Prod.fst) =
        data.foldl (fun acc it => addSet acc (idOf it)) (m.map Prod.fst) := by
  induction data with
  | nil => intro m; rfl
  | cons it rest ih =>
    intro m
    rw [List.foldl_cons, List.foldl_cons, ih, keys_mergeStep]

theorem addSet_nodup {l : List String} {x : String} (h : l.Nodup) : (addSet l x).Nodup := by
  unfold addSet
  split
  · exact h
  · next hc =>
    have hx : x ∉ l := by simpa using hc
    simp [List.nodup_append, h, hx]

theorem toFinset_addSet (l : List String) (x : String) :
    (addSet l x).toFinset = insert x l.toFinset := by
  ext a
  simp [List.mem_toFinset, mem_addSet, Finset.mem_insert, or_comm]

theorem foldl_addSet_nodup (ids : List String) :
    ∀ acc : List String, acc.Nodup → (ids.foldl addSet acc).Nodup := by
  induction ids with
  | nil => intro acc h; exact h
  | cons x xs ih => intro acc h; exact ih _ (addSet_nodup h)

theorem foldl_addSet_toFinset (ids : List String) :
    ∀ acc : List String, (ids.foldl addSet acc).toFinset = acc.toFinset ∪ ids.toFinset := by
  induction ids with
  | nil => intro acc; simp
  | cons x xs ih =>
    intro acc
    rw [List.foldl_cons, ih, toFinset_addSet]
    ext a
    simp only [Finset.mem_union, Finset.mem_insert, List.toFinset_cons]
    tauto

/-! ### Membership through the dictionary updates -/

theorem mem_setL {m : LangMap} {k v : String} {p : String × String} :
    p ∈ setL m k v → p = (k, v) ∨ p ∈ m := by
  induction m with
  | nil => simp [setL]
  | cons q rest ih =>
    by_cases h : q.1 = k
    · simp only [setL, if_pos h, List.mem_cons]
      rintro (rfl | hm)
      · left
        rw [h]
      · exact Or.inr (Or.inr hm)
    · simp only [setL, if_neg h, List.mem_cons]
      rintro (rfl | hm)
      · exact Or.inr (Or.inl rfl)
      · rcases ih hm with h' | h'
        · exact Or.inl h'
        · exact Or.inr (Or.inr h')

theorem mem_condSet {m : LangMap} {lang v : String} {p : String × String} :
    p ∈ condSet m lang v → (p = (lang, v) ∧ v ≠ "") ∨ p ∈ m := by
  unfold condSet
  by_cases h : v = ""
  · rw [if_pos h]
    exact Or.inr
  · rw [if_neg h]
    intro hp
    rcases mem_setL hp with h' | h'
    · exact Or.inl ⟨h', h⟩
    · exact Or.inr h'

theorem mem_ensureKey {α : Type} {m : List (String × α)} {k : String} {dflt : α}
    {q : String × α} :
    q ∈ ensureKey m k dflt → q ∈ m ∨ q = (k, dflt) := by
  unfold ensureKey
  split
  · exact Or.inl
  · intro hq
    rcases List.mem_append.mp hq with h | h
    · exact Or.inl h
    · exact Or.inr (List.mem_singleton.mp h)

theorem mem_modifyA {α : Type} {m : List (String × α)} {k : String} {f : α → α}
    {q : String × α} :
    q ∈ modifyA m k f → q ∈ m ∨ ∃ d, (k, d) ∈ m ∧ q = (k, f d) := by
  intro h
  rcases List.mem_map.mp h with ⟨p, hp, he⟩
  by_cases hk : p.1 = k
  · right
    refine ⟨p.2, ?_, ?_⟩
    · rw [← hk]
      exact hp
    · rw [← he, if_pos hk, hk]
  · left
    rw [← he, if_neg hk]
    exact hp

/-- Invariant of the grouped normalizer for every guarded per-language map:
if a map is seeded empty and updated only through `condSet` with a fixed
record projection, then each of its values is non-empty and stems from a
source row. -/
theorem values_foldl_guarded (sel : Doctor → LangMap) (proj : Record → String)
    (hmerge : ∀ (doc : Doctor) (it : Record),
      sel (mergeInto doc it) = condSet (sel doc) (langOf it) (proj it))
    (hseed : ∀ (id : String) (it : Record), sel (seedDoctor id it) = [])
    (data : List Record) :
    ∀ (m : DocMap) (U : List Record),
      (∀ it ∈ data, it ∈ U) →
      (∀ q ∈ m, ∀ p ∈ sel (Prod.snd q), p.2 ≠ "" ∧ ∃ it ∈ U, proj it = p.2) →
      ∀ q ∈ data.foldl mergeStep m, ∀ p ∈ sel (Prod.snd q),
        p.2 ≠ "" ∧ ∃ it ∈ U, proj it = p.2 := by
  induction data with
  | nil => intro m U _ hm; exact hm
  | cons it rest ih =>
    intro m U hU hm
    rw [List.foldl_cons]
    refine ih _ U (fun x hx => hU x (List.mem_cons_of_mem _ hx)) ?_
    intro q hq p hp
    rw [mergeStep_eq] at hq
    rcases mem_modifyA hq with hq' | ⟨d₀, hd₀, rfl⟩
    · rcases mem_ensureKey hq' with hq'' | rfl
      · exact hm q hq'' p hp
      · rw [hseed] at hp
        exact absurd hp (List.not_mem_nil p)
    · rw [hmerge] at hp
      rcases mem_condSet hp with ⟨rfl, hne⟩ | hp'
      · exact ⟨hne, it, hU it (List.mem_cons_self _ _), rfl⟩
      · rcases mem_ensureKey hd₀ with hmem | he
        · exact hm _ hmem p hp'
        · have : d₀ = seedDoctor (idOf it) it := congrArg Prod.snd he
          rw [this, hseed] at hp'
          exact absurd hp' (List.not_mem_nil p)

/-! ## Claim theorems -/

/-- **C3 counterexample.** The claim says localizable maps never store empty
strings; but grouping a record with no name stores `""` under `"en"` in the
names map, and per-row normalization stores `""` placeholders in every map
(here: addresses). -/
theorem c3_counterexample_empty_placeholders :
    (mergeByDocId [({} : Record)]).map (fun d => d.names) = [[("en", "")]] ∧
      (normalizePerRow [({} : Record)]).map (fun d => d.addresses) = [[("en", "")]] := by
  decide

/-- **C3 (amended).** In grouped mode, every localizable map *except the
names map* contains only non-empty values that came from source rows (the
names map — and, in per-row mode, every map — may store an empty-string
placeholder when the source value is absent). -/
theorem c3_guarded_maps_nonempty_from_rows (data : List Record) (d : Doctor)
    (hd : d ∈ mergeByDocId data) :
    (∀ p ∈ d.addresses, p.2 ≠ "" ∧ ∃ it ∈ data, it.doc_address = p.2) ∧
      (∀ p ∈ d.phones, p.2 ≠ "" ∧ ∃ it ∈ data, it.doc_tel_A = p.2) ∧
      (∀ p ∈ d.specialties, p.2 ≠ "" ∧ ∃ it ∈ data, it.doc_cat_name = p.2) ∧
      (∀ p ∈ d.openings, p.2 ≠ "" ∧ ∃ it ∈ data, it.doc_wh = p.2) ∧
      (∀ p ∈ d.remarks, p.2 ≠ "" ∧ ∃ it ∈ data, it.doc_remark = p.2) ∧
      (∀ p ∈ d.areas, p.2 ≠ "" ∧ ∃ it ∈ data, it.area_name = p.2) ∧
      (∀ p ∈ d.districts, p.2 ≠ "" ∧ ∃ it ∈ data, it.district_name = p.2) ∧
      (∀ p ∈ d.cities, p.2 ≠ "" ∧ ∃ it ∈ data, it.city_name = p.2) := by
  rcases List.mem_map.mp hd with ⟨q, hq, rfl⟩
  refine ⟨?_, ?_, ?_, ?_, ?_, ?_, ?_, ?_⟩ <;>
    exact fun p hp =>
      values_foldl_guarded _ _ (fun _ _ => rfl) (fun _ _ => rfl) data [] data
        (fun _ h => h) (by simp) q hq p hp

/-- Witness for C3 (amended) on the grouped scenario rows. -/
theorem c3_guarded_maps_nonempty_from_rows_witness :
    scenarioDoctor ∈ mergeByDocId [scenarioRowEn, scenarioRowZh] ∧
      (∀ p ∈ scenarioDoctor.cities, p.2 ≠ "" ∧
        ∃ it ∈ [scenarioRowEn, scenarioRowZh], it.city_name = p.2) :=
  ⟨by decide,
    (c3_guarded_maps_nonempty_from_rows [scenarioRowEn, scenarioRowZh] scenarioDoctor
      (by decide)).2.2.2.2.2.2.2⟩

/-! ### Field evolution of a grouped entity -/

theorem jsOr_assoc (a b c : String) : jsOr (jsOr a b) c = jsOr a (jsOr b c) := by
  by_cases ha : a = "" <;> by_cases hb : b = "" <;> simp [jsOr, ha, hb]

theorem mergeInto_address (doc : Doctor) (it : Record) :
    (mergeInto doc it).address = doc.address := rfl

theorem mergeInto_cta_link (doc : Doctor) (it : Record) :
    (mergeInto doc it).cta_link = doc.cta_link := rfl

theorem mergeInto_id (doc : Doctor) (it : Record) :
    (mergeInto doc it).id = doc.id := rfl

theorem mergeInto_lat (doc : Doctor) (it : Record) :
    (mergeInto doc it).lat = jsOr doc.lat it.doc_lat := by
  show (if doc.lat = "" ∧ it.doc_lat ≠ "" then it.doc_lat else doc.lat) = _
  by_cases ha : doc.lat = "" <;> by_cases hb : it.doc_lat = "" <;> simp [jsOr, ha, hb]

theorem mergeInto_lng (doc : Doctor) (it : Record) :
    (mergeInto doc it).lng = jsOr doc.lng it.doc_long := by
  show (if doc.lng = "" ∧ it.doc_long ≠ "" then it.doc_long else doc.lng) = _
  by_cases ha : doc.lng = "" <;> by_cases hb : it.doc_long = "" <;> simp [jsOr, ha, hb]

theorem foldl_mergeInto_address (rows : List Record) :
    ∀ d₀ : Doctor, (rows.foldl mergeInto d₀).address = d₀.address := by
  induction rows with
  | nil => intro d₀; rfl
  | cons r rs ih => intro d₀; rw [List.foldl_cons, ih, mergeInto_address]

theorem foldl_mergeInto_cta_link (rows : List Record) :
    ∀ d₀ : Doctor, (rows.foldl mergeInto d₀).cta_link = d₀.cta_link := by
  induction rows with
  | nil => intro d₀; rfl
  | cons r rs ih => intro d₀; rw [List.foldl_cons, ih, mergeInto_cta_link]

theorem foldl_mergeInto_id (rows : List Record) :
    ∀ d₀ : Doctor, (rows.foldl mergeInto d₀).id = d₀.id := by
  induction rows with
  | nil => intro d₀; rfl
  | cons r rs ih => intro d₀; rw [List.foldl_cons, ih, mergeInto_id]

theorem foldl_mergeInto_lat (rows : List Record) :
    ∀ d₀ : Doctor,
      (rows.foldl mergeInto d₀).lat =
        jsOr d₀.lat (firstTruthy (rows.map (fun it => it.doc_lat))) := by
  induction rows with
  | nil => intro d₀; simp [firstTruthy, jsOr_empty_right]
  | cons r rs ih =>
    intro d₀
    rw [List.foldl_cons, ih, mergeInto_lat, List.map_cons, firstTruthy_cons, jsOr_assoc]

theorem foldl_mergeInto_lng (rows : List Record) :
    ∀ d₀ : Doctor,
      (rows.foldl mergeInto d₀).lng =
        jsOr d₀.lng (firstTruthy (rows.map (fun it => it.doc_long))) := by
  induction rows with
  | nil => intro d₀; simp [firstTruthy, jsOr_empty_right]
  | cons r rs ih =>
    intro d₀
    rw [List.foldl_cons, ih, mergeInto_lng, List.map_cons, firstTruthy_cons, jsOr_assoc]

theorem lookupA_foldl_mergeStep_some (data : List Record) :
    ∀ (m : DocMap) (k : String) (d : Doctor), lookupA m k = some d →
      lookupA (data.foldl mergeStep m) k =
        some ((data.filter (fun it => idOf it = k)).foldl mergeInto d) := by
  induction data with
  | nil => intro m k d h; simpa using h
  | cons it rest ih =>
    intro m k d h
    rw [List.foldl_cons, List.filter_cons]
    by_cases hk : idOf it = k
    · have h1 : lookupA (mergeStep m it) k = some (mergeInto d it) := by
        rw [mergeStep_eq, lookupA_modifyA, if_pos hk.symm, lookupA_ensureKey, if_pos hk.symm,
          hk, h]
        rfl
      rw [ih _ _ _ h1]
      simp [hk]
    · have h1 : lookupA (mergeStep m it) k = some d := by
        rw [mergeStep_eq, lookupA_modifyA, if_neg (fun e => hk e.symm), lookupA_ensureKey,
          if_neg (fun e => hk e.symm), h]
      rw [ih _ _ _ h1]
      simp [hk]

theorem lookupA_foldl_mergeStep_none (data : List Record) :
    ∀ (m : DocMap) (k : String), lookupA m k = none →
      lookupA (data.foldl mergeStep m) k =
        match data.filter (fun it => idOf it = k) with
        | [] => none
        | it :: rest => some (rest.foldl mergeInto (mergeInto (seedDoctor k it) it)) := by
  induction data with
  | nil => intro m k h; simpa using h
  | cons it rest ih =>
    intro m k h
    rw [List.foldl_cons, List.filter_cons]
    by_cases hk : idOf it = k
    · have h1 : lookupA (mergeStep m it) k = some (mergeInto (seedDoctor k it) it) := by
        rw [mergeStep_eq, lookupA_modifyA, if_pos hk.symm, lookupA_ensureKey, if_pos hk.symm,
          hk, h]
        rfl
      rw [lookupA_foldl_mergeStep_some rest _ _ _ h1]
      simp [hk]
    · have h1 : lookupA (mergeStep m it) k = none := by
        rw [mergeStep_eq, lookupA_modifyA, if_neg (fun e => hk e.symm), lookupA_ensureKey,
          if_neg (fun e => hk e.symm), h]
      rw [ih _ _ h1]
      simp [hk]

theorem lookupA_of_mem_nodup {α : Type} {m : List (String × α)}
    (hnd : (m.map Prod.fst).Nodup) {k : String} {v : α} (h : (k, v) ∈ m) :
    lookupA m k = some v := by
  induction m with
  | nil => cases h
  | cons p rest ih =>
    rw [List.map_cons, List.nodup_cons] at hnd
    obtain ⟨hp, hrest⟩ := hnd
    rcases List.mem_cons.mp h with rfl | hm
    · simp [lookupA_cons]
    · have hpk : p.1 ≠ k := by
        intro e
        exact hp (e ▸ List.mem_map.mpr ⟨(k, v), hm, rfl⟩)
      obtain ⟨a, b⟩ := p
      rw [lookupA_cons, if_neg hpk]
      exact ih hrest hm

theorem keys_fold_mergeStep_nodup (data : List Record) :
    ((data.foldl mergeStep []).map Prod.fst).Nodup := by
  rw [keys_foldl_mergeStep data []]
  show (data.foldl (fun acc it => addSet acc (idOf it)) []).Nodup
  rw [← List.foldl_map]
  exact foldl_addSet_nodup _ [] List.nodup_nil

/-- **C4 counterexample.** The claim says no later record with the same
identifier changes a seed field; but when the first record's latitude is
empty, a later record's coordinates are written into the entity. -/
theorem c4_counterexample_lat_backfilled :
    (mergeByDocId [emptyNameRowEn, latRowZh]).map (fun d => (d.lat, d.lng)) =
        [("22.3", "114.2")] ∧
      emptyNameRowEn.doc_lat = "" ∧ emptyNameRowEn.doc_long = "" := by
  decide

/-- **C4 (amended).** In grouped mode, the fallback address and the action
link of an entity come from the first record bearing its identifier and are
never changed by later records; latitude and longitude equal the first
*non-empty* value among that identifier's records in input order (so a later
record back-fills them exactly when every earlier one left them empty, and
never overrides a non-empty value). -/
theorem c4_seed_fields_first_record (data : List Record) (d : Doctor)
    (hd : d ∈ mergeByDocId data) :
    ∃ r₀, (data.filter (fun it => idOf it = d.id)).head? = some r₀ ∧
      d.address = r₀.doc_address ∧ d.cta_link = r₀.cta_link ∧
      d.lat = firstTruthy ((data.filter (fun it => idOf it = d.id)).map (fun it => it.doc_lat)) ∧
      d.lng = firstTruthy ((data.filter (fun it => idOf it = d.id)).map (fun it => it.doc_long)) := by
  rcases List.mem_map.mp hd with ⟨q, hq, rfl⟩
  obtain ⟨k, d⟩ := q
  have hl : lookupA (data.foldl mergeStep []) k = some d :=
    lookupA_of_mem_nodup (keys_fold_mergeStep_nodup data) hq
  rw [lookupA_foldl_mergeStep_none data [] k rfl] at hl
  cases hfil : data.filter (fun it => idOf it = k) with
  | nil =>
    rw [hfil] at hl
    cases hl
  | cons r₀ rest =>
    rw [hfil] at hl
    have hde : d = rest.foldl mergeInto (mergeInto (seedDoctor k r₀) r₀) := by
      injection hl with h'
      exact h'.symm
    have hid : (k, d).2.id = k := by
      show d.id = k
      rw [hde, foldl_mergeInto_id, mergeInto_id]
      rfl
    rw [hid, hfil]
    refine ⟨r₀, rfl, ?_, ?_, ?_, ?_⟩
    · show d.address = _
      rw [hde, foldl_mergeInto_address, mergeInto_address]
      rfl
    · show d.cta_link = _
      rw [hde, foldl_mergeInto_cta_link, mergeInto_cta_link]
      rfl
    · show d.lat = _
      rw [hde, foldl_mergeInto_lat, mergeInto_lat, List.map_cons, firstTruthy_cons]
      show jsOr (jsOr (seedDoctor k r₀).lat r₀.doc_lat) _ = _
      rw [show (seedDoctor k r₀).lat = r₀.doc_lat from rfl, jsOr_self]
    · show d.lng = _
      rw [hde, foldl_mergeInto_lng, mergeInto_lng, List.map_cons, firstTruthy_cons]
      show jsOr (jsOr (seedDoctor k r₀).lng r₀.doc_long) _ = _
      rw [show (seedDoctor k r₀).lng = r₀.doc_long from rfl, jsOr_self]

/-! ### Vocabulary builder characterization -/

/-- The specialty component of `popStep`, written out. -/
theorem popStep_fst (lang : String) (acc : List String × CitiesMap) (d : Doctor) :
    (popStep lang acc d).1 =
      (if tData d .specialty lang = "" then acc.1
        else addSet acc.1 (tData d .specialty lang)) := rfl

/-- The cities component of `popStep`, written out. -/
theorem popStep_snd (lang : String) (acc : List String × CitiesMap) (d : Doctor) :
    (popStep lang acc d).2 =
      modifyA (ensureKey acc.2 (tData d .city lang) []) (tData d .city lang)
        (fun dm =>
          if tData d .area lang = "" then ensureKey dm (tData d .district lang) []
          else modifyA (ensureKey dm (tData d .district lang) [])
            (tData d .district lang) (fun s => addSet s (tData d .area lang))) := rfl

theorem mem_fst_popStep (lang : String) (acc : List String × CitiesMap) (d : Doctor)
    (s : String) :
    s ∈ (popStep lang acc d).1 ↔
      s ∈ acc.1 ∨ (tData d .specialty lang = s ∧ s ≠ "") := by
  rw [popStep_fst]
  by_cases hs : tData d .specialty lang = ""
  · rw [if_pos hs]
    constructor
    · exact Or.inl
    · rintro (h | ⟨he, hn⟩)
      · exact h
      · exact absurd (hs.symm.trans he).symm hn
  · rw [if_neg hs, mem_addSet]
    constructor
    · rintro (h | rfl)
      · exact Or.inl h
      · exact Or.inr ⟨rfl, hs⟩
    · rintro (h | ⟨rfl, _⟩)
      · exact Or.inl h
      · exact Or.inr rfl

theorem mem_keys_popStep (lang : String) (acc : List String × CitiesMap) (d : Doctor)
    (c : String) :
    c ∈ ((popStep lang acc d).2.map Prod.fst) ↔
      c ∈ (acc.2.map Prod.fst) ∨ tData d .city lang = c := by
  rw [popStep_snd, keys_modifyA, keys_ensureKey]
  rw [show (if (acc.2.map Prod.fst).contains (tData d .city lang) then acc.2.map Prod.fst
      else acc.2.map Prod.fst ++ [tData d .city lang]) =
    addSet (acc.2.map Prod.fst) (tData d .city lang) from rfl]
  rw [mem_addSet]
  constructor
  · rintro (h | rfl)
    · exact Or.inl h
    · exact Or.inr rfl
  · rintro (h | rfl)
    · exact Or.inl h
    · exact Or.inr rfl

/-- Keys of the inner district-map update of `popStep`. -/
theorem keys_popInner (dL aL : String) (dm : DistrictMap) :
    ((if aL = "" then ensureKey dm dL ([] : List String)
      else modifyA (ensureKey dm dL []) dL (fun s => addSet s aL)).map Prod.fst)
      = addSet (dm.map Prod.fst) dL := by
  by_cases ha : aL = ""
  · rw [if_pos ha, keys_ensureKey]
    rfl
  · rw [if_neg ha, keys_modifyA, keys_ensureKey]
    rfl

/-- Lookup through the inner district-map update of `popStep`. -/
theorem lookup_popInner (dL aL dt : String) (dm : DistrictMap) :
    lookupA (if aL = "" then ensureKey dm dL ([] : List String)
      else modifyA (ensureKey dm dL []) dL (fun s => addSet s aL)) dt =
      if dt = dL then
        some (if aL = "" then (lookupA dm dL).getD []
          else addSet ((lookupA dm dL).getD []) aL)
      else lookupA dm dt := by
  by_cases ha : aL = ""
  · rw [if_pos ha, lookupA_ensureKey]
    by_cases hdt : dt = dL <;> simp [hdt, ha]
  · rw [if_neg ha, lookupA_modifyA]
    by_cases hdt : dt = dL
    · rw [if_pos hdt, if_pos hdt, lookupA_ensureKey, if_pos hdt, Option.map_some', if_neg ha]
    · rw [if_neg hdt, if_neg hdt, lookupA_ensureKey, if_neg hdt]

theorem lookupA_nil {α : Type} (k : String) : lookupA ([] : List (String × α)) k = none := rfl

theorem lookupA_popStep_cities (lang : String) (acc : List String × CitiesMap) (d : Doctor)
    (c : String) :
    lookupA (popStep lang acc d).2 c =
      if c = tData d .city lang then
        some (if tData d .area lang = "" then
            ensureKey ((lookupA acc.2 (tData d .city lang)).getD [])
              (tData d .district lang) []
          else modifyA (ensureKey ((lookupA acc.2 (tData d .city lang)).getD [])
              (tData d .district lang) [])
            (tData d .district lang) (fun s => addSet s (tData d .area lang)))
      else lookupA acc.2 c := by
  rw [popStep_snd, lookupA_modifyA]
  by_cases hc : c = tData d .city lang
  · rw [if_pos hc, if_pos hc, lookupA_ensureKey, if_pos hc, Option.map_some']
  · rw [if_neg hc, if_neg hc, lookupA_ensureKey, if_neg hc]

theorem exists_some_mem_keys (x : DistrictMap) (dt : String) :
    (∃ dm, some x = some dm ∧ dt ∈ dm.map Prod.fst) ↔ dt ∈ x.map Prod.fst := by
  constructor
  · rintro ⟨dm, hdm, hmem⟩
    injection hdm with hdm
    rw [← hdm] at hmem
    exact hmem
  · intro hmem
    exact ⟨x, rfl, hmem⟩

theorem exists_some_area (x : DistrictMap) (dt a : String) :
    (∃ dm as, some x = some dm ∧ lookupA dm dt = some as ∧ a ∈ as) ↔
      (∃ as, lookupA x dt = some as ∧ a ∈ as) := by
  constructor
  · rintro ⟨dm, as, hdm, hla, ha⟩
    injection hdm with hdm
    rw [← hdm] at hla
    exact ⟨as, hla, ha⟩
  · rintro ⟨as, hla, ha⟩
    exact ⟨x, as, rfl, hla, ha⟩

theorem exists_some_mem_self (x : List String) (a : String) :
    (∃ as, some x = some as ∧ a ∈ as) ↔ a ∈ x := by
  constructor
  · rintro ⟨as, has, ha⟩
    injection has with has
    rw [← has] at ha
    exact ha
  · intro ha
    exact ⟨x, rfl, ha⟩

theorem exists_district_popStep (lang : String) (acc : List String × CitiesMap) (d : Doctor)
    (c dt : String) :
    (∃ dm, lookupA (popStep lang acc d).2 c = some dm ∧ dt ∈ dm.map Prod.fst) ↔
      ((∃ dm, lookupA acc.2 c = some dm ∧ dt ∈ dm.map Prod.fst) ∨
        (tData d .city lang = c ∧ tData d .district lang = dt)) := by
  rw [lookupA_popStep_cities]
  by_cases hc : c = tData d .city lang
  · subst hc
    rw [if_pos rfl, exists_some_mem_keys, keys_popInner, mem_addSet]
    cases hlk : lookupA acc.2 (tData d .city lang) with
    | none =>
      simp only [Option.getD_none, List.map_nil]
      constructor
      · rintro (h | rfl)
        · exact absurd h (List.not_mem_nil dt)
        · exact Or.inr ⟨by trivial, by trivial⟩
      · rintro (⟨dm, hdm, _⟩ | ⟨_, rfl⟩)
        · cases hdm
        · exact Or.inr rfl
    | some dmc =>
      simp only [Option.getD_some]
      constructor
      · rintro (h | rfl)
        · exact Or.inl ⟨dmc, rfl, h⟩
        · exact Or.inr ⟨by trivial, by trivial⟩
      · rintro (⟨dm, hdm, hmem⟩ | ⟨_, rfl⟩)
        · injection hdm with hdm
          rw [← hdm] at hmem
          exact Or.inl hmem
        · exact Or.inr rfl
  · rw [if_neg hc]
    constructor
    · exact Or.inl
    · rintro (h | ⟨he, _⟩)
      · exact h
      · exact absurd he.symm hc

theorem exists_area_popStep (lang : String) (acc : List String × CitiesMap) (d : Doctor)
    (c dt a : String) :
    (∃ dm as, lookupA (popStep lang acc d).2 c = some dm ∧ lookupA dm dt = some as ∧ a ∈ as) ↔
      ((∃ dm as, lookupA acc.2 c = some dm ∧ lookupA dm dt = some as ∧ a ∈ as) ∨
        (tData d .city lang = c ∧ tData d .district lang = dt ∧
          a = tData d .area lang ∧ tData d .area lang ≠ "")) := by
  rw [lookupA_popStep_cities]
  by_cases hc : c = tData d .city lang
  · subst hc
    rw [if_pos rfl, exists_some_area, lookup_popInner]
    by_cases hdt : dt = tData d .district lang
    · subst hdt
      rw [if_pos rfl, exists_some_mem_self]
      by_cases ha : tData d .area lang = ""
      · rw [if_pos ha]
        cases hlk : lookupA acc.2 (tData d .city lang) with
        | none =>
          simp only [Option.getD_none, lookupA_nil]
          constructor
          · intro hmem
            exact absurd hmem (List.not_mem_nil a)
          · rintro (⟨dm, as, hdm, _, _⟩ | ⟨_, _, _, hne⟩)
            · cases hdm
            · exact absurd ha hne
        | some dmc =>
          simp only [Option.getD_some]
          cases hld : lookupA dmc (tData d .district lang) with
          | none =>
            simp only [Option.getD_none]
            constructor
            · intro hmem
              exact absurd hmem (List.not_mem_nil a)
            · rintro (⟨dm, as, hdm, hla, hmem⟩ | ⟨_, _, _, hne⟩)
              · injection hdm with hdm
                rw [← hdm, hld] at hla
                cases hla
              · exact absurd ha hne
          | some as₀ =>
            simp only [Option.getD_some]
            constructor
            · intro hmem
              exact Or.inl ⟨dmc, as₀, rfl, hld, hmem⟩
            · rintro (⟨dm, as, hdm, hla, hmem⟩ | ⟨_, _, _, hne⟩)
              · injection hdm with hdm
                rw [← hdm, hld] at hla
                injection hla with hla
                rw [← hla] at hmem
                exact hmem
              · exact absurd ha hne
      · rw [if_neg ha, mem_addSet]
        cases hlk : lookupA acc.2 (tData d .city lang) with
        | none =>
          simp only [Option.getD_none, lookupA_nil]
          constructor
          · rintro (hmem | rfl)
            · exact absurd hmem (List.not_mem_nil a)
            · exact Or.inr ⟨by trivial, by trivial, by trivial, ha⟩
          · rintro (⟨dm, as, hdm, _, _⟩ | ⟨_, _, rfl, _⟩)
            · cases hdm
            · exact Or.inr rfl
        | some dmc =>
          simp only [Option.getD_some]
          cases hld : lookupA dmc (tData d .district lang) with
          | none =>
            simp only [Option.getD_none]
            constructor
            · rintro (hmem | rfl)
              · exact absurd hmem (List.not_mem_nil a)
              · exact Or.inr ⟨by trivial, by trivial, by trivial, ha⟩
            · rintro (⟨dm, as, hdm, hla, hmem⟩ | ⟨_, _, rfl, _⟩)
              · injection hdm with hdm
                rw [← hdm, hld] at hla
                cases hla
              · exact Or.inr rfl
          | some as₀ =>
            simp only [Option.getD_some]
            constructor
            · rintro (hmem | rfl)
              · exact Or.inl ⟨dmc, as₀, rfl, hld, hmem⟩
              · exact Or.inr ⟨by trivial, by trivial, by trivial, ha⟩
            · rintro (⟨dm, as, hdm, hla, hmem⟩ | ⟨_, _, rfl, _⟩)
              · injection hdm with hdm
                rw [← hdm, hld] at hla
                injection hla with hla
                rw [← hla] at hmem
                exact Or.inl hmem
              · exact Or.inr rfl
    · rw [if_neg hdt]
      cases hlk : lookupA acc.2 (tData d .city lang) with
      | none =>
        simp only [Option.getD_none, lookupA_nil]
        constructor
        · rintro ⟨as, has, _⟩
          cases has
        · rintro (⟨dm, as, hdm, _, _⟩ | ⟨_, he, _, _⟩)
          · cases hdm
          · exact absurd he.symm hdt
      | some dmc =>
        simp only [Option.getD_some]
        constructor
        · rintro ⟨as, hla, hmem⟩
          exact Or.inl ⟨dmc, as, rfl, hla, hmem⟩
        · rintro (⟨dm, as, hdm, hla, hmem⟩ | ⟨_, he, _, _⟩)
          · injection hdm with hdm
            rw [← hdm] at hla
            exact ⟨as, hla, hmem⟩
          · exact absurd he.symm hdt
  · rw [if_neg hc]
    constructor
    · exact Or.inl
    · rintro (h | ⟨he, _, _, _⟩)
      · exact h
      · exact absurd he.symm hc

/-- Any observation of the vocabulary accumulator that each `popStep` either
preserves or establishes for the processed entity holds after the fold
exactly when it held initially or some entity establishes it. -/
theorem foldl_popStep_obs (Obs : List String × CitiesMap → Prop) (Q : Doctor → Prop)
    (lang : String)
    (hstep : ∀ acc d, Obs (popStep lang acc d) ↔ Obs acc ∨ Q d) (doctors : List Doctor) :
    ∀ acc, Obs (doctors.foldl (popStep lang) acc) ↔ Obs acc ∨ ∃ d ∈ doctors, Q d := by
  induction doctors with
  | nil =>
    intro acc
    simp
  | cons d ds ih =>
    intro acc
    rw [List.foldl_cons, ih, hstep]
    simp only [List.mem_cons]
    constructor
    · rintro ((h | h) | ⟨d', hd', hq⟩)
      · exact Or.inl h
      · exact Or.inr ⟨d, Or.inl rfl, h⟩
      · exact Or.inr ⟨d', Or.inr hd', hq⟩
    · rintro (h | ⟨d', (rfl | hd'), hq⟩)
      · exact Or.inl (Or.inl h)
      · exact Or.inl (Or.inr hq)
      · exact Or.inr ⟨d', hd', hq⟩

/-- **C2 counterexample.** With display language `"en"`, an entity whose only
specialty label is stored under `"zh-HK"` still contributes that label to the
specialty vocabulary: the builder resolves labels through the `tData`
fallback chain, not from the active language only. -/
theorem c2_counterexample_fallback_leak :
    specialtyOptions (mergeByDocId [specialtyRowZh]) "en" = ["心臟科"] ∧
      (mergeByDocId [specialtyRowZh]).map (fun d => lookupL d.specialties "en") = [none] := by
  decide

/-- **C2 (amended).** The vocabulary builder derives specialty, city,
district and area labels from the *label-resolution fallback chain* (the
active language, then `"zh-HK"`, `"zh-CN"`, `"en"`): a label enters the
vocabulary for an attribute exactly when some entity *resolves* to it —
non-empty for specialties and areas, the empty city/district bucket being
kept — so an entity lacking a value in the active language still contributes
through its fallback languages. -/
theorem c2_vocabulary_from_fallback_resolution (doctors : List Doctor) (lang : String) :
    (∀ s, s ∈ specialtyOptions doctors lang ↔
      ∃ d ∈ doctors, tData d .specialty lang = s ∧ s ≠ "") ∧
    (∀ c, c ∈ cityOptions doctors lang ↔ ∃ d ∈ doctors, tData d .city lang = c) ∧
    (∀ c dt, (∃ dm, lookupA (populateFilters doctors lang).2 c = some dm ∧
        dt ∈ dm.map Prod.fst) ↔
      ∃ d ∈ doctors, tData d .city lang = c ∧ tData d .district lang = dt) ∧
    (∀ c dt a, (∃ dm as, lookupA (populateFilters doctors lang).2 c = some dm ∧
        lookupA dm dt = some as ∧ a ∈ as) ↔
      ∃ d ∈ doctors, tData d .city lang = c ∧ tData d .district lang = dt ∧
        a = tData d .area lang ∧ tData d .area lang ≠ "") := by
  refine ⟨?_, ?_, ?_, ?_⟩
  · intro s
    unfold specialtyOptions populateFilters
    rw [mem_sortStr]
    rw [foldl_popStep_obs (fun acc => s ∈ acc.1)
      (fun d => tData d .specialty lang = s ∧ s ≠ "") lang
      (fun acc d => mem_fst_popStep lang acc d s) doctors ([], [])]
    simp
  · intro c
    unfold cityOptions populateFilters
    rw [mem_sortStr]
    rw [foldl_popStep_obs (fun acc => c ∈ acc.2.map Prod.fst)
      (fun d => tData d .city lang = c) lang
      (fun acc d => mem_keys_popStep lang acc d c) doctors ([], [])]
    simp
  · intro c dt
    unfold populateFilters
    rw [foldl_popStep_obs
      (fun acc => ∃ dm, lookupA acc.2 c = some dm ∧ dt ∈ dm.map Prod.fst)
      (fun d => tData d .city lang = c ∧ tData d .district lang = dt) lang
      (fun acc d => exists_district_popStep lang acc d c dt) doctors ([], [])]
    simp [lookupA_nil]
  · intro c dt a
    unfold populateFilters
    rw [foldl_popStep_obs
      (fun acc => ∃ dm as, lookupA acc.2 c = some dm ∧ lookupA dm dt = some as ∧ a ∈ as)
      (fun d => tData d .city lang = c ∧ tData d .district lang = dt ∧
        a = tData d .area lang ∧ tData d .area lang ≠ "") lang
      (fun acc d => exists_area_popStep lang acc d c dt a) doctors ([], [])]
    simp [lookupA_nil]

/-- Witness for C4 (amended) on the grouped scenario rows. -/
theorem c4_seed_fields_first_record_witness :
    scenarioDoctor ∈ mergeByDocId [scenarioRowEn, scenarioRowZh] ∧
      ∃ r₀,
        (([scenarioRowEn, scenarioRowZh].filter
          (fun it => idOf it = scenarioDoctor.id)).head? = some r₀ ∧
        scenarioDoctor.address = r₀.doc_address ∧
        scenarioDoctor.cta_link = r₀.cta_link ∧
        scenarioDoctor.lat = firstTruthy (([scenarioRowEn, scenarioRowZh].filter
          (fun it => idOf it = scenarioDoctor.id)).map (fun it => it.doc_lat)) ∧
        scenarioDoctor.lng = firstTruthy (([scenarioRowEn, scenarioRowZh].filter
          (fun it => idOf it = scenarioDoctor.id)).map (fun it => it.doc_long))) :=
  ⟨by decide,
    c4_seed_fields_first_record [scenarioRowEn, scenarioRowZh] scenarioDoctor (by decide)⟩

/-- **C7.** The normalizer's output size is decided by the strategy flag:
grouped mode yields one entity per distinct identifier of the input (records
lacking an identifier share the `""` identifier), per-row mode one entity per
input row. -/
theorem c7_entity_counts (data : List Record) :
    (mergeByDocId data).length = ((data.map idOf).dedup).length ∧
      (normalizePerRow data).length = data.length := by
  constructor
  · unfold mergeByDocId
    rw [List.length_map]
    have hlen : (data.foldl mergeStep []).length =
        ((data.foldl mergeStep []).map Prod.fst).length := (List.length_map _ _).symm
    rw [hlen, keys_foldl_mergeStep data []]
    have hmap : data.foldl (fun acc it => addSet acc (idOf it)) (([] : DocMap).map Prod.fst) =
        (data.map idOf).foldl addSet [] := by
      rw [List.foldl_map]
      rfl
    rw [hmap]
    have hnd : ((data.map idOf).foldl addSet []).Nodup :=
      foldl_addSet_nodup _ [] List.nodup_nil
    have hfin : ((data.map idOf).foldl addSet []).toFinset = (data.map idOf).toFinset := by
      rw [foldl_addSet_toFinset]
      simp
    rw [← List.toFinset_card_of_nodup hnd, hfin, List.card_toFinset]
  · unfold normalizePerRow
    rw [List.length_map, List.enum_length]

/-- **C8.** Applying the filter engine with an empty text query and all four
categorical selections empty returns the entity collection unchanged, in
original order: `applyFilters` is the identity for the empty selection. -/
theorem c8_empty_selection_is_identity (doctors : List Doctor) :
    applyFilters doctors
      { query := "", specialty := "", city := "", district := "", area := "" } = doctors := by
  unfold applyFilters
  rw [List.filter_eq_self]
  intro d _
  simp [matchesFilters, show lowerStr (trimStr "") = "" from rfl]

/-- The boolean `values.some(v => v.toLowerCase() === label.toLowerCase())`
test holds exactly when the map has a case-insensitively matching entry. -/
theorem any_values_lower_iff (m : LangMap) (label : String) :
    (valuesL m).any (fun s => lowerStr s = lowerStr label) = true ↔
      ∃ p ∈ m, lowerStr p.2 = lowerStr label := by
  rw [List.any_eq_true]
  constructor
  · rintro ⟨x, hx, he⟩
    rcases List.mem_map.mp hx with ⟨p, hp, rfl⟩
    exact ⟨p, hp, of_decide_eq_true he⟩
  · rintro ⟨p, hp, he⟩
    exact ⟨p.2, List.mem_map.mpr ⟨p, hp, rfl⟩, decide_eq_true he⟩

/-- **C1.** For every entity and every non-empty categorical choice (with the
text query and the other selectors empty), `applyFilters` keeps the entity if
and only if the corresponding language-keyed map has at least one entry, in
any language, whose value equals the selected label case-insensitively — in
particular the match never consults the active display language. -/
theorem c1_filter_matches_any_language (d : Doctor) (cat : Category) (label : String)
    (h : label ≠ "") :
    matchesFilters (Selection.forCategory cat label) d = true ↔
      ∃ p ∈ d.categoryMap cat, lowerStr p.2 = lowerStr label := by
  have hq : lowerStr (trimStr "") = "" := rfl
  rw [← any_values_lower_iff]
  cases cat with
  | specialty =>
    by_cases hany : (valuesL d.specialties).any (fun s => lowerStr s = lowerStr label) = true <;>
      simp_all [matchesFilters, Selection.forCategory, Doctor.categoryMap, h, hq]
  | city =>
    by_cases hany : (valuesL d.cities).any (fun s => lowerStr s = lowerStr label) = true <;>
      simp_all [matchesFilters, Selection.forCategory, Doctor.categoryMap, h, hq]
  | district =>
    by_cases hany : (valuesL d.districts).any (fun s => lowerStr s = lowerStr label) = true <;>
      simp_all [matchesFilters, Selection.forCategory, Doctor.categoryMap, h, hq]
  | area =>
    by_cases hany : (valuesL d.areas).any (fun s => lowerStr s = lowerStr label) = true <;>
      simp_all [matchesFilters, Selection.forCategory, Doctor.categoryMap, h, hq]

/-- Witness for C1 on the spec's scenario entity: selecting city
`"Hong Kong"` matches the entity whose cities map is
`{en: "Hong Kong", zh-HK: "香港"}`. -/
theorem c1_filter_matches_any_language_witness :
    ("Hong Kong" : String) ≠ "" ∧
      (matchesFilters (Selection.forCategory .city "Hong Kong") scenarioDoctor = true ↔
        ∃ p ∈ scenarioDoctor.categoryMap .city, lowerStr p.2 = lowerStr "Hong Kong") :=
  ⟨by decide, c1_filter_matches_any_language scenarioDoctor .city "Hong Kong" (by decide)⟩

/-- The district selector's choice is cleared by `updateDistrictsForCity`
(the `innerHTML` reset). -/
theorem districtVal_updateDistrictsForCity (c : String) (st : UIState) :
    (updateDistrictsForCity c st).districtVal = "" := by
  simp only [updateDistrictsForCity]
  split <;> rfl

/-- The area selector's choice is cleared by `updateDistrictsForCity`. -/
theorem areaVal_updateDistrictsForCity (c : String) (st : UIState) :
    (updateDistrictsForCity c st).areaVal = "" := by
  simp only [updateDistrictsForCity]
  split <;> rfl

/-- The area selector's choice is cleared by `updateAreasForDistrict`. -/
theorem areaVal_updateAreasForDistrict (c dt : String) (st : UIState) :
    (updateAreasForDistrict c dt st).areaVal = "" := by
  simp only [updateAreasForDistrict]
  split <;> rfl

/-- `updateAreasForDistrict` leaves the district selector's choice alone. -/
theorem districtVal_updateAreasForDistrict (c dt : String) (st : UIState) :
    (updateAreasForDistrict c dt st).districtVal = st.districtVal := by
  simp only [updateAreasForDistrict]
  split <;> rfl

theorem districtVal_applyFiltersUI (st : UIState) :
    (applyFiltersUI st).districtVal = st.districtVal := rfl

theorem areaVal_applyFiltersUI (st : UIState) :
    (applyFiltersUI st).areaVal = st.areaVal := rfl

/-- **C5.** Changing the city selector resets the district and area choices
to the no-constraint value before the next filter pass (and changing the
district resets the area): selecting city `x`, then district `y`, then city
`z` leaves both downstream selections empty, for every starting state. -/
theorem c5_cascade_reset (st : UIState) (x y z : String) :
    (selectCity z (selectDistrict y (selectCity x st))).districtVal = "" ∧
      (selectCity z (selectDistrict y (selectCity x st))).areaVal = "" := by
  unfold selectCity
  constructor
  · rw [districtVal_applyFiltersUI, districtVal_updateAreasForDistrict,
      districtVal_updateDistrictsForCity]
  · rw [areaVal_applyFiltersUI, areaVal_updateAreasForDistrict]

/-- **C6 counterexample.** The claim says a non-leading `+` does not survive
`formatPhoneForTel`; but on `"0+1"` the code keeps the interior `+`. -/
theorem c6_counterexample_interior_plus :
    formatPhoneForTel "0+1" = "0+1" ∧ '+' ∈ (formatPhoneForTel "0+1").data.drop 1 := by
  decide

/-- **C6 (amended).** `formatPhoneForTel` removes every character except
digits and `+` signs — wherever they occur: every output character is a `+`
or a digit, the output is a subsequence of the input, and every `+` or digit
of the input (leading or not) survives. -/
theorem c6_phone_strips_all_but_plus_and_digits (phone : String) :
    (∀ c ∈ (formatPhoneForTel phone).data, c = '+' ∨ ('0' ≤ c ∧ c ≤ '9')) ∧
      (formatPhoneForTel phone).data.Sublist phone.data ∧
      (∀ c ∈ phone.data, (c = '+' ∨ ('0' ≤ c ∧ c ≤ '9')) → c ∈ (formatPhoneForTel phone).data) := by
  unfold formatPhoneForTel
  by_cases h : phone = ""
  · subst h
    refine ⟨by simp, by simp, ?_⟩
    intro c hc
    simp at hc
  · rw [if_neg h]
    refine ⟨?_, List.filter_sublist _, ?_⟩
    · intro c hc
      have := List.of_mem_filter (p := fun c => decide (c = '+' ∨ ('0' ≤ c ∧ c ≤ '9'))) hc
      simpa using this
    · intro c hc hcd
      exact List.mem_filter.mpr ⟨hc, by simpa using hcd⟩

/-- Witness for C6 (amended): the interior `+` of `"0+1"` survives. -/
theorem c6_phone_strips_all_but_plus_and_digits_witness :
    '+' ∈ (formatPhoneForTel "0+1").data :=
  (c6_phone_strips_all_but_plus_and_digits "0+1").2.2 '+' (by decide) (by decide)

/-- **C9 counterexample.** With `names = {en: "", zh-HK: "陳"}` — produced by
grouping an empty-name English row with a Chinese row — the requested key
`"en"` is present, yet `tData` skips its (empty) value and returns `"陳"`,
so resolution does not return the value stored under the requested language
key whenever that key is present. -/
theorem c9_counterexample_present_key_skipped :
    lookupL emptyNameDoctor.names "en" = some "" ∧ tData emptyNameDoctor .name "en" = "陳" := by
  decide

/-- **C9 (amended).** Label resolution returns the value under the requested
language if present *and non-empty*; otherwise it falls back, in this fixed
order, to `"zh-HK"`, `"zh-CN"`, `"en"`, skipping absent or empty values; if
no key yields a non-empty value it returns the empty string. -/
theorem c9_fallback_chain (d : Doctor) (f : Field) (lang : String) :
    tData d f lang =
        firstTruthy [lookupD (d.mapOf f) lang, lookupD (d.mapOf f) "zh-HK",
          lookupD (d.mapOf f) "zh-CN", lookupD (d.mapOf f) "en"] ∧
      (tData d f lang = "" ↔
        lookupD (d.mapOf f) lang = "" ∧ lookupD (d.mapOf f) "zh-HK" = "" ∧
        lookupD (d.mapOf f) "zh-CN" = "" ∧ lookupD (d.mapOf f) "en" = "") :=
  ⟨tData_eq_firstTruthy d f lang, tData_eq_empty_iff d f lang⟩

/-- **C10.** A value stored as the empty string under the requested language
is treated as absent: resolution falls through to the `"zh-HK"`/`"zh-CN"`/
`"en"` chain (and so can return a non-empty value of another language), and
it returns `""` only when every fallback key is also absent or empty — never
a stored empty string while a later fallback key holds a non-empty value. -/
theorem c10_empty_value_treated_as_absent (d : Doctor) (f : Field) (lang : String)
    (h : lookupL (d.mapOf f) lang = some "") :
    tData d f lang =
        firstTruthy [lookupD (d.mapOf f) "zh-HK", lookupD (d.mapOf f) "zh-CN",
          lookupD (d.mapOf f) "en"] ∧
      (tData d f lang = "" →
        lookupD (d.mapOf f) "zh-HK" = "" ∧ lookupD (d.mapOf f) "zh-CN" = "" ∧
        lookupD (d.mapOf f) "en" = "") := by
  have hD : lookupD (d.mapOf f) lang = "" := by simp [lookupD, h]
  constructor
  · rw [tData_eq_firstTruthy, firstTruthy_cons, hD, jsOr_empty_left]
  · intro he
    exact ((tData_eq_empty_iff d f lang).mp he).2

/-- Witness for C10: the entity whose English name is stored as `""`
resolves its name to the Chinese value. -/
theorem c10_empty_value_treated_as_absent_witness :
    lookupL (emptyNameDoctor.mapOf .name) "en" = some "" ∧
      (tData emptyNameDoctor .name "en" =
          firstTruthy [lookupD (emptyNameDoctor.mapOf .name) "zh-HK",
            lookupD (emptyNameDoctor.mapOf .name) "zh-CN",
            lookupD (emptyNameDoctor.mapOf .name) "en"] ∧
        (tData emptyNameDoctor .name "en" = "" →
          lookupD (emptyNameDoctor.mapOf .name) "zh-HK" = "" ∧
          lookupD (emptyNameDoctor.mapOf .name) "zh-CN" = "" ∧
          lookupD (emptyNameDoctor.mapOf .name) "en" = "")) :=
  ⟨by decide, c10_empty_value_treated_as_absent emptyNameDoctor .name "en" (by decide)⟩

end DoctorList
